import Mathlib

/-!
Verification of the diff-to-image core (GitDiffViewer): diff parsing,
selection toggling, and canvas-layout measurement, shallowly embedded
from the TypeScript source.
-/

/-- A hunk of a parsed diff: `@@ ... @@` header plus raw content lines. -/
structure DiffHunk where
  id : String
  header : String
  lines : List String
  selected : Bool
deriving DecidableEq, Repr

instance : Inhabited DiffHunk := ⟨⟨"", "", [], false⟩⟩

/-- A file of a parsed diff. -/
structure DiffFile where
  id : String
  header : String
  path : String
  hunks : List DiffHunk
  selected : Bool
deriving DecidableEq, Repr

instance : Inhabited DiffFile := ⟨⟨"", "", "", [], false⟩⟩

/-- A file under construction: its hunks are kept as indices into a heap of
hunks, mirroring the reference (aliasing) semantics of the source, where
`currentHunk` may still point into an already flushed file. -/
structure PFile where
  id : String
  header : String
  path : String
  hunkRefs : List Nat
  selected : Bool
deriving DecidableEq, Repr

/-- Parser state: heap of all hunks created so far, flushed files, cursors
and the id counters of `parseDiff`. -/
structure ParseState where
  heap : List DiffHunk
  flushed : List PFile
  currentFile : Option PFile
  currentHunk : Option Nat
  fileId : Nat
  hunkId : Nat
deriving Repr

def initState : ParseState := ⟨[], [], none, none, 0, 0⟩

/-- `s.startsWith(pat)` of JS, as a prefix test on the character lists. -/
def strStartsWith (s pat : String) : Bool := pat.data.isPrefixOf s.data

/-- Split a character list on every `'\n'`, keeping empty segments, as JS
`text.split('\n')` does. -/
def splitNl : List Char → List (List Char)
  | [] => [[]]
  | c :: cs =>
    if c = '\n' then [] :: splitNl cs
    else
      match splitNl cs with
      | [] => [[c]]
      | s :: rest => (c :: s) :: rest

/-- `text.split('\n')` of JS. -/
def splitLines (s : String) : List String := (splitNl s.data).map String.mk

/-- Apply `f` to the element at index `i` (no-op when out of range). -/
def updateNth {α : Type} : List α → Nat → (α → α) → List α
  | [], _, _ => []
  | x :: xs, 0, f => f x :: xs
  | x :: xs, Nat.succ i, f => x :: updateNth xs i f

/-- Chars after the first occurrence of `pat`, or `none`. -/
def afterFirst (pat : List Char) : List Char → Option (List Char)
  | [] => if pat.isPrefixOf ([] : List Char) then some [] else none
  | c :: cs =>
    if pat.isPrefixOf (c :: cs) then some ((c :: cs).drop pat.length)
    else afterFirst pat cs

/-- Chars after the last occurrence of `pat`, or `none`. -/
def afterLast (pat : List Char) : List Char → Option (List Char)
  | [] => if pat.isPrefixOf ([] : List Char) then some [] else none
  | c :: cs =>
    match afterLast pat cs with
    | some r => some r
    | none =>
      if pat.isPrefixOf (c :: cs) then some ((c :: cs).drop pat.length)
      else none

/-- `extractFilePath`: models the regex
`diff --git a\/(.*) b\/(.*)` with capture 2 returned, else `"unknown"`;
greediness of the first `(.*)` means the last ` b/` after the first
`diff --git a/` splits old path from new path. -/
def extractFilePath (line : String) : String :=
  match afterFirst "diff --git a/".data line.data with
  | none => "unknown"
  | some rest =>
    match afterLast " b/".data rest with
    | none => "unknown"
    | some after => String.mk after

/-- One step of `parseDiff`'s line scan. -/
def parseStep (st : ParseState) (line : String) : ParseState :=
  if strStartsWith line "diff --git" then
    let flushed :=
      match st.currentFile with
      | some f => st.flushed ++ [f]
      | none => st.flushed
    let fid := st.fileId + 1
    { st with
      flushed := flushed
      currentFile := some
        { id := "file-" ++ toString fid
          header := line
          path := extractFilePath line
          hunkRefs := []
          selected := true }
      fileId := fid }
  else if strStartsWith line "---" || strStartsWith line "+++" then
    match st.currentFile with
    | some f =>
      { st with currentFile := some { f with header := f.header ++ "\n" ++ line } }
    | none => st
  else if strStartsWith line "@@" then
    match st.currentFile with
    | some f =>
      let hid := st.hunkId + 1
      let idx := st.heap.length
      { st with
        heap := st.heap ++
          [{ id := "hunk-" ++ toString hid, header := line, lines := [], selected := true }]
        currentFile := some { f with hunkRefs := f.hunkRefs ++ [idx] }
        currentHunk := some idx
        hunkId := hid }
    | none => st
  else
    match st.currentHunk with
    | some i =>
      { st with heap := updateNth st.heap i (fun h => { h with lines := h.lines ++ [line] }) }
    | none => st

/-- Resolve hunk references through the heap, producing the final files. -/
def materialize (st : ParseState) : List DiffFile :=
  let allFiles :=
    st.flushed ++ (match st.currentFile with | some f => [f] | none => [])
  allFiles.map fun f =>
    { id := f.id
      header := f.header
      path := f.path
      hunks := f.hunkRefs.map (fun i => st.heap.getD i default)
      selected := f.selected }

/-- `parseDiff`'s scan over an explicit list of lines. -/
def parseLines (ls : List String) : List DiffFile :=
  materialize (ls.foldl parseStep initState)

/-- `parseDiff`: split on line feeds and scan. -/
def parseDiff (text : String) : List DiffFile :=
  parseLines (splitLines text)

/-- `toggleFileSelection`: flip the matching file's flag and cascade it
onto all its hunks. -/
def toggleFileSelection (fileId : String) (d : List DiffFile) : List DiffFile :=
  d.map fun file =>
    if file.id = fileId then
      { file with
        selected := !file.selected
        hunks := file.hunks.map (fun hunk => { hunk with selected := !file.selected }) }
    else file

/-- `toggleHunkSelection`: flip the matching hunk's flag inside the matching
file, then recompute the file's flag as the conjunction over its hunks. -/
def toggleHunkSelection (fileId hunkId : String) (d : List DiffFile) : List DiffFile :=
  d.map fun file =>
    if file.id = fileId then
      let updatedHunks := file.hunks.map fun hunk =>
        if hunk.id = hunkId then { hunk with selected := !hunk.selected } else hunk
      { file with
        hunks := updatedHunks
        selected := updatedHunks.all (fun hunk => hunk.selected) }
    else file

/-- `selectAll`: set every file's and every hunk's flag uniformly. -/
def selectAll (select : Bool) (d : List DiffFile) : List DiffFile :=
  d.map fun file =>
    { file with
      selected := select
      hunks := file.hunks.map (fun hunk => { hunk with selected := select }) }

/-- Digits of a decimal number (as `parseInt` reads a digit string). -/
def digitsToNat (ds : List Char) : Nat :=
  ds.foldl (fun acc c => acc * 10 + (c.toNat - '0'.toNat)) 0

/-- Greedy `\d+` at the head of the list: value and remaining chars. -/
def parseNumAt (l : List Char) : Option (Nat × List Char) :=
  match l.takeWhile Char.isDigit with
  | [] => none
  | ds => some (digitsToNat ds, l.dropWhile Char.isDigit)

/-- The optional `(?:,\d+)?` group: a comma must be followed by digits and
is then consumed together with them; a non-comma is left alone. -/
def skipOptComma (l : List Char) : Option (List Char) :=
  match l with
  | ',' :: r =>
    match parseNumAt r with
    | some (_, r1) => some r1
    | none => none
  | _ => some l

/-- Try the hunk-header pattern `@@ -(\d+)(?:,\d+)? \+(\d+)(?:,\d+)? @@`
anchored at the head of the list, yielding the two captured numbers. -/
def tryHeaderAt (l : List Char) : Option (Nat × Nat) :=
  match l with
  | '@' :: '@' :: ' ' :: '-' :: r =>
    match parseNumAt r with
    | none => none
    | some (o, r1) =>
      match skipOptComma r1 with
      | none => none
      | some r2 =>
        match r2 with
        | ' ' :: '+' :: r3 =>
          match parseNumAt r3 with
          | none => none
          | some (n, r4) =>
            match skipOptComma r4 with
            | none => none
            | some r5 =>
              match r5 with
              | ' ' :: '@' :: '@' :: _ => some (o, n)
              | _ => none
        | _ => none
  | _ => none

/-- Unanchored (leftmost) search for the hunk-header pattern. -/
def findHunkNums : List Char → Option (Nat × Nat)
  | [] => none
  | c :: cs =>
    match tryHeaderAt (c :: cs) with
    | some r => some r
    | none => findHunkNums cs

/-- The number-walking loop of `calculateLineNumbers`: records the current
counters for each line, then advances the old counter unless the line is
added and the new counter unless the line is removed. -/
def numberLines (oldLineNum newLineNum : Nat) : List String → List (Nat × Nat)
  | [] => []
  | line :: rest =>
    (oldLineNum, newLineNum) ::
      numberLines
        (if strStartsWith line "+" then oldLineNum else oldLineNum + 1)
        (if strStartsWith line "-" then newLineNum else newLineNum + 1)
        rest

/-- `calculateLineNumbers`: empty on a header that fails the numeric
pattern, otherwise the walk starting from the two captured numbers. -/
def calculateLineNumbers (hunk : DiffHunk) : List (Nat × Nat) :=
  match findHunkNums hunk.header.data with
  | none => []
  | some (o, n) => numberLines o n hunk.lines

/-- The filtering step of `downloadAsImage`: files that are selected or have
a selected hunk, restricted to their selected hunks, dropping files left
empty. -/
def filterSelected (d : List DiffFile) : List DiffFile :=
  ((d.filter (fun file => file.selected || file.hunks.any (fun hunk => hunk.selected))).map
    (fun file => { file with hunks := file.hunks.filter (fun hunk => hunk.selected) })).filter
    (fun file => decide (file.hunks.length > 0))

/-- Height accumulated over one file's hunks: hunk header plus lines, with a
5px gap after every hunk except the last. -/
def hunksHeight (fontSize : Nat) : List DiffHunk → Nat
  | [] => 0
  | [hunk] => (fontSize + 4) + hunk.lines.length * (fontSize + 2)
  | hunk :: next :: rest =>
    (fontSize + 4) + hunk.lines.length * (fontSize + 2) + 5 +
      hunksHeight fontSize (next :: rest)

/-- Height accumulated over the filtered files: file header plus hunks, with
a 10px gap after every file except the last. -/
def filesHeight (fontSize : Nat) : List DiffFile → Nat
  | [] => 0
  | [file] => (fontSize + 8) + hunksHeight fontSize file.hunks
  | file :: next :: rest =>
    (fontSize + 8) + hunksHeight fontSize file.hunks + 10 +
      filesHeight fontSize (next :: rest)

/-- The measuring pass of `downloadAsImage`: top padding, content, bottom
padding. -/
def totalHeight (fontSize : Nat) (files : List DiffFile) : Nat :=
  10 + filesHeight fontSize files + 10

/-- `downloadAsImage`: abort (no output) without a drawing surface or with an
empty filtered selection; otherwise produce the measured canvas height. -/
def downloadAsImage (hasSurface : Bool) (fontSize : Nat) (d : List DiffFile) : Option Nat :=
  let selectedFiles := filterSelected d
  if !hasSurface || selectedFiles.isEmpty then none
  else some (totalHeight fontSize selectedFiles)

/-- `downloadAsImage` as a step on the component's document state: it reads
the parsed document but never writes it back. -/
def downloadAsImageStep (hasSurface : Bool) (fontSize : Nat) (d : List DiffFile) :
    List DiffFile × Option Nat :=
  (d, downloadAsImage hasSurface fontSize d)

/-- Selection-independent shape of a hunk: id, header and lines. -/
def hunkShape (hunk : DiffHunk) : String × String × List String :=
  (hunk.id, hunk.header, hunk.lines)

/-- Selection-independent shape of a file: id, header, path and hunk shapes. -/
def fileShape (file : DiffFile) : String × String × String × List (String × String × List String) :=
  (file.id, file.header, file.path, file.hunks.map hunkShape)

/-- Number of files created so far: flushed files plus an open one. -/
def fileCount (st : ParseState) : Nat :=
  st.flushed.length + (match st.currentFile with | some _ => 1 | none => 0)

/-- `getD` through `map`, for an in-range index. -/
theorem getD_map_of_lt {α β : Type} (f : α → β) (l : List α) (i : Nat)
    (h : i < l.length) (d₁ : α) (d₂ : β) :
    (l.map f).getD i d₂ = f (l.getD i d₁) := by
  induction l generalizing i with
  | nil => simp at h
  | cons x xs ih =>
    cases i with
    | zero => simp [List.getD]
    | succ i =>
      simp only [List.map_cons, List.getD_cons_succ]
      exact ih i (by simpa using h)

/-- C1 counterexample: from a mixed state (one hunk selected, one not),
toggling the file twice does not restore the hunks' prior flags. -/
theorem toggleFileSelection_twice_cex :
    toggleFileSelection "file-1" (toggleFileSelection "file-1"
      [⟨"file-1", "hdr", "p",
        [⟨"hunk-1", "@@ -1 +1 @@", [], true⟩, ⟨"hunk-2", "@@ -2 +2 @@", [], false⟩],
        false⟩]) ≠
      [⟨"file-1", "hdr", "p",
        [⟨"hunk-1", "@@ -1 +1 @@", [], true⟩, ⟨"hunk-2", "@@ -2 +2 @@", [], false⟩],
        false⟩] := by
  decide

/-- C1 (amended): toggling a file twice restores the file's own selected
flag and leaves every other file unchanged, but forces every hunk of the
addressed file to the file's (restored) flag — so the hunks' prior flags
are restored exactly when they already all equalled the file's flag. -/
theorem toggleFileSelection_twice (d : List DiffFile) (fileId : String) :
    toggleFileSelection fileId (toggleFileSelection fileId d) =
      d.map (fun file =>
        if file.id = fileId then
          { file with
            hunks := file.hunks.map (fun hunk => { hunk with selected := file.selected }) }
        else file) := by
  unfold toggleFileSelection
  rw [List.map_map]
  refine congrFun (congrArg List.map (funext fun file => ?_)) d
  by_cases h : file.id = fileId
  · simp [Function.comp, h, Bool.not_not, List.map_map]
  · simp [Function.comp, h]

theorem numberLines_length (ls : List String) (o n : Nat) :
    (numberLines o n ls).length = ls.length := by
  induction ls generalizing o n with
  | nil => rfl
  | cons l rest ih => simp [numberLines, ih]

theorem numberLines_getD (ls : List String) (o n i : Nat) (hi : i < ls.length) :
    (numberLines o n ls).getD i (0, 0) =
      (o + ((ls.take i).filter (fun l => !strStartsWith l "+")).length,
       n + ((ls.take i).filter (fun l => !strStartsWith l "-")).length) := by
  induction ls generalizing o n i with
  | nil => simp at hi
  | cons l rest ih =>
    cases i with
    | zero => simp [numberLines, List.getD]
    | succ i =>
      have hi' : i < rest.length := by simpa using hi
      simp only [numberLines, List.getD_cons_succ, List.take_succ_cons, List.filter_cons]
      rw [ih _ _ i hi']
      cases hp : strStartsWith l "+" <;> cases hm : strStartsWith l "-" <;>
        simp [hp, hm] <;> omega

/-- C2 counterexample: for the spec's own example hunk the derived pair at
the removed line is `(11, 21)` — the new-side counter advanced past 20 on
the preceding context line — not `(11, 20)` as claimed. -/
theorem calculateLineNumbers_cex :
    (calculateLineNumbers ⟨"hunk-1", "@@ -10,3 +20,4 @@",
        [" ctx1", "-old1", "+new1", "+new2", " ctx2"], true⟩).getD 1 (0, 0) = (11, 21) ∧
    (calculateLineNumbers ⟨"hunk-1", "@@ -10,3 +20,4 @@",
        [" ctx1", "-old1", "+new1", "+new2", " ctx2"], true⟩).getD 1 (0, 0) ≠ (11, 20) := by
  decide

/-- C2 (amended): on the example hunk the derived pairs are
`(10,20), (11,21), (12,21), (12,22), (12,23)`; in general, whenever the
header matches the numeric pattern, entry `i` equals the start numbers
shifted by how many earlier lines are not added (old side) respectively
not removed (new side): the old counter advances on every line except
added lines, the new counter on every line except removed lines. -/
theorem calculateLineNumbers_spec :
    (calculateLineNumbers ⟨"hunk-1", "@@ -10,3 +20,4 @@",
        [" ctx1", "-old1", "+new1", "+new2", " ctx2"], true⟩ =
      [(10, 20), (11, 21), (12, 21), (12, 22), (12, 23)]) ∧
    ∀ (hunk : DiffHunk) (o n : Nat),
      findHunkNums hunk.header.data = some (o, n) →
      (calculateLineNumbers hunk).length = hunk.lines.length ∧
      ∀ i, i < hunk.lines.length →
        (calculateLineNumbers hunk).getD i (0, 0) =
          (o + ((hunk.lines.take i).filter (fun l => !strStartsWith l "+")).length,
           n + ((hunk.lines.take i).filter (fun l => !strStartsWith l "-")).length) := by
  constructor
  · decide
  · intro hunk o n h
    unfold calculateLineNumbers
    rw [h]
    exact ⟨numberLines_length _ _ _, fun i hi => numberLines_getD _ _ _ _ hi⟩

/-- C2 witness: the amended theorem applied to a concrete hunk. -/
theorem calculateLineNumbers_spec_witness :
    (calculateLineNumbers ⟨"hunk-9", "@@ -3,2 +5,2 @@", [" a", "+b"], true⟩).getD 1 (0, 0) =
      (4, 6) := by
  have h := (calculateLineNumbers_spec.2 ⟨"hunk-9", "@@ -3,2 +5,2 @@", [" a", "+b"], true⟩
    3 5 (by decide)).2 1 (by decide)
  exact h.trans (by decide)

/-- C3 counterexample: an input ending in a line feed whose last hunk is
still open gets the trailing empty string appended to that hunk's lines. -/
theorem parseDiff_trailing_newline_cex :
    parseDiff "diff --git a/a b/a\n@@ -1 +1 @@\n x\n" =
      [⟨"file-1", "diff --git a/a b/a", "a",
        [⟨"hunk-1", "@@ -1 +1 @@", [" x", ""], true⟩], true⟩] ∧
    "" ∈ (((parseDiff "diff --git a/a b/a\n@@ -1 +1 @@\n x\n").getD 0
      default).hunks.getD 0 default).lines := by
  decide

theorem parseStep_empty_line (st : ParseState) :
    parseStep st "" =
      match st.currentHunk with
      | some i =>
        { st with heap := updateNth st.heap i (fun h => { h with lines := h.lines ++ [""] }) }
      | none => st :=
  rfl

/-- C3 (amended): a content line — in particular the trailing empty string
produced by a trailing newline — is dropped only when no hunk is open at
that point; when a hunk is open, it is appended to that hunk's line list. -/
theorem parseLines_trailing_empty (ls : List String) :
    ((ls.foldl parseStep initState).currentHunk = none →
      parseLines (ls ++ [""]) = parseLines ls) ∧
    ∀ i, (ls.foldl parseStep initState).currentHunk = some i →
      (ls ++ [""]).foldl parseStep initState =
        { ls.foldl parseStep initState with
          heap := updateNth (ls.foldl parseStep initState).heap i
            (fun h => { h with lines := h.lines ++ [""] }) } := by
  have hfold : (ls ++ [""]).foldl parseStep initState =
      parseStep (ls.foldl parseStep initState) "" := by
    rw [List.foldl_append]
    rfl
  constructor
  · intro hnone
    unfold parseLines
    rw [hfold, parseStep_empty_line, hnone]
  · intro i hi
    rw [hfold, parseStep_empty_line, hi]
    simp [hi]

/-- C3 witness: with no hunk open, the trailing empty line is dropped. -/
theorem parseLines_trailing_empty_witness :
    parseLines (["hello"] ++ [""]) = parseLines ["hello"] :=
  (parseLines_trailing_empty ["hello"]).1 (by decide)

theorem parseStep_fileCount (st : ParseState) (line : String) :
    fileCount (parseStep st line) =
      fileCount st + (if strStartsWith line "diff --git" then 1 else 0) := by
  by_cases h1 : strStartsWith line "diff --git"
  · cases hcf : st.currentFile <;> simp [parseStep, fileCount, h1, hcf]
  · by_cases h2 : (strStartsWith line "---" || strStartsWith line "+++")
    · cases hcf : st.currentFile <;> simp [parseStep, fileCount, h1, h2, hcf]
    · by_cases h3 : strStartsWith line "@@"
      · cases hcf : st.currentFile <;> simp [parseStep, fileCount, h1, h2, h3, hcf]
      · cases hch : st.currentHunk <;> simp [parseStep, fileCount, h1, h2, h3, hch]

theorem foldl_fileCount (ls : List String) (st : ParseState) :
    fileCount (ls.foldl parseStep st) =
      fileCount st + (ls.filter (fun l => strStartsWith l "diff --git")).length := by
  induction ls generalizing st with
  | nil => simp
  | cons l rest ih =>
    simp only [List.foldl_cons, List.filter_cons]
    rw [ih, parseStep_fileCount]
    cases h : strStartsWith l "diff --git" <;> simp [h] <;> omega

theorem materialize_length (st : ParseState) :
    (materialize st).length = fileCount st := by
  unfold materialize fileCount
  cases h : st.currentFile <;> simp [h]

theorem parseDiff_length (text : String) :
    (parseDiff text).length =
      ((splitLines text).filter (fun l => strStartsWith l "diff --git")).length := by
  unfold parseDiff parseLines
  rw [materialize_length, foldl_fileCount]
  simp [fileCount, initState]

/-- C4 counterexample: a line starting with `diff --git` that does not match
the full `diff --git a/... b/...` shape still creates a file, with the
`"unknown"` path fallback exercised. -/
theorem parseDiff_fallback_cex :
    parseDiff "diff --git hello" =
      [⟨"file-1", "diff --git hello", "unknown", [], true⟩] ∧
    extractFilePath "diff --git hello" = "unknown" := by
  decide

/-- C4 (amended): the example header yields path `"src/new.ts"`; a line that
does not start with `diff --git` never creates a file — the number of
parsed files equals the number of lines starting with `diff --git` — but a
line starting with `diff --git` that fails the full shape does create a
file, with path `"unknown"` (see the counterexample). -/
theorem parseDiff_path_extraction :
    (parseDiff "diff --git a/src/old.ts b/src/new.ts" =
      [⟨"file-1", "diff --git a/src/old.ts b/src/new.ts", "src/new.ts", [], true⟩]) ∧
    ∀ text, (parseDiff text).length =
      ((splitLines text).filter (fun l => strStartsWith l "diff --git")).length :=
  ⟨by decide, parseDiff_length⟩

/-- C8: `parseDiff` is a total function; on any input none of whose lines
starts with `diff --git` — malformed or empty input included — it returns
a document with zero files. -/
theorem parseDiff_no_git (text : String)
    (h : ∀ l ∈ splitLines text, strStartsWith l "diff --git" = false) :
    parseDiff text = [] := by
  have hlen := parseDiff_length text
  have hfil : (splitLines text).filter (fun l => strStartsWith l "diff --git") = [] := by
    refine List.filter_eq_nil_iff.mpr ?_
    intro a ha
    simp [h a ha]
  rw [hfil] at hlen
  exact List.length_eq_zero.mp hlen

/-- C8 witness: a malformed input and the empty input both parse to zero
files. -/
theorem parseDiff_no_git_witness :
    parseDiff "hello\nworld" = [] ∧ parseDiff "" = [] :=
  ⟨parseDiff_no_git "hello\nworld" (by decide), parseDiff_no_git "" (by decide)⟩

/-- C5: `toggleHunkSelection` on a file with the addressed id flips exactly
the hunks carrying the addressed hunk id (a unique one in parsed
documents), leaves the other hunks of the file unchanged, and recomputes
the file's selected flag as true iff every hunk of the file is then
selected — partial selection is file.selected = false, no tri-state. -/
theorem toggleHunkSelection_spec (d : List DiffFile) (fileId hunkId : String) (i : Nat)
    (hi : i < d.length) (hid : (d.getD i default).id = fileId) :
    ((toggleHunkSelection fileId hunkId d).getD i default).hunks.length =
      (d.getD i default).hunks.length ∧
    (∀ j, j < (d.getD i default).hunks.length →
      ((toggleHunkSelection fileId hunkId d).getD i default).hunks.getD j default =
        (if ((d.getD i default).hunks.getD j default).id = hunkId then
          { (d.getD i default).hunks.getD j default with
            selected := !((d.getD i default).hunks.getD j default).selected }
        else (d.getD i default).hunks.getD j default)) ∧
    ((toggleHunkSelection fileId hunkId d).getD i default).selected =
      (((toggleHunkSelection fileId hunkId d).getD i default).hunks.all
        (fun hunk => hunk.selected)) := by
  have hgd : (toggleHunkSelection fileId hunkId d).getD i default =
      { d.getD i default with
        hunks := (d.getD i default).hunks.map fun hunk =>
          if hunk.id = hunkId then { hunk with selected := !hunk.selected } else hunk
        selected := ((d.getD i default).hunks.map fun hunk =>
          if hunk.id = hunkId then { hunk with selected := !hunk.selected } else hunk).all
            (fun hunk => hunk.selected) } := by
    unfold toggleHunkSelection
    rw [getD_map_of_lt _ d i hi default default, if_pos hid]
  refine ⟨?_, ?_, ?_⟩
  · rw [hgd]
    simp
  · intro j hj
    rw [hgd]
    simp only
    rw [getD_map_of_lt _ _ j hj default default]
  · rw [hgd]

/-- C5 witness: flipping hunk-2 of a two-hunk fully selected file leaves the
file deselected. -/
theorem toggleHunkSelection_spec_witness :
    ((toggleHunkSelection "file-1" "hunk-2"
      [⟨"file-1", "hdr", "p",
        [⟨"hunk-1", "@@ -1 +1 @@", [], true⟩, ⟨"hunk-2", "@@ -2 +2 @@", [], true⟩],
        true⟩]).getD 0 default).hunks.getD 1 default =
      ⟨"hunk-2", "@@ -2 +2 @@", [], false⟩ := by
  have h := (toggleHunkSelection_spec
    [⟨"file-1", "hdr", "p",
      [⟨"hunk-1", "@@ -1 +1 @@", [], true⟩, ⟨"hunk-2", "@@ -2 +2 @@", [], true⟩],
      true⟩] "file-1" "hunk-2" 0 (by decide) (by decide)).2.1 1 (by decide)
  exact h.trans (by decide)

theorem map_untouched_hunks (hunkId : String) (hs : List DiffHunk)
    (h : ∀ x ∈ hs, x.id ≠ hunkId) :
    hs.map (fun hunk =>
      if hunk.id = hunkId then { hunk with selected := !hunk.selected } else hunk) = hs := by
  induction hs with
  | nil => rfl
  | cons a t ih =>
    simp only [List.map_cons]
    rw [if_neg (h a (by simp)), ih (fun x hx => h x (by simp [hx]))]

/-- C9: when the addressed hunk id matches no hunk of the addressed file,
`toggleHunkSelection` flips no hunk but still recomputes the file's flag
from its unchanged hunks; on a file with an empty hunk list the flag is
set to true regardless of its prior value, the all-hunks-selected test
being vacuously true. -/
theorem toggleHunkSelection_missing (d : List DiffFile) (fileId hunkId : String) (i : Nat)
    (hi : i < d.length) (hfid : (d.getD i default).id = fileId) :
    ((∀ hunk ∈ (d.getD i default).hunks, hunk.id ≠ hunkId) →
      ((toggleHunkSelection fileId hunkId d).getD i default).hunks =
        (d.getD i default).hunks ∧
      ((toggleHunkSelection fileId hunkId d).getD i default).selected =
        (d.getD i default).hunks.all (fun hunk => hunk.selected)) ∧
    ((d.getD i default).hunks = [] →
      ((toggleHunkSelection fileId hunkId d).getD i default).selected = true) := by
  have hgd : (toggleHunkSelection fileId hunkId d).getD i default =
      { d.getD i default with
        hunks := (d.getD i default).hunks.map fun hunk =>
          if hunk.id = hunkId then { hunk with selected := !hunk.selected } else hunk
        selected := ((d.getD i default).hunks.map fun hunk =>
          if hunk.id = hunkId then { hunk with selected := !hunk.selected } else hunk).all
            (fun hunk => hunk.selected) } := by
    unfold toggleHunkSelection
    rw [getD_map_of_lt _ d i hi default default, if_pos hfid]
  constructor
  · intro hnone
    rw [hgd]
    simp only
    rw [map_untouched_hunks hunkId _ hnone]
    exact ⟨rfl, rfl⟩
  · intro hemp
    rw [hgd]
    simp only
    rw [hemp]
    rfl

/-- C9 witness: a file with no hunks becomes selected on any hunk toggle. -/
theorem toggleHunkSelection_missing_witness :
    ((toggleHunkSelection "file-1" "hunk-9"
      [⟨"file-1", "hdr", "p", [], false⟩]).getD 0 default).selected = true :=
  (toggleHunkSelection_missing [⟨"file-1", "hdr", "p", [], false⟩] "file-1" "hunk-9" 0
    (by decide) (by decide)).2 (by decide)

/-- C10: the three selection operations change only selected flags — the
per-file shape (id, header, path, and each hunk's id, header, lines, in
order) is preserved, including the document's file order and each file's
hunk order; and the two targeted toggles leave every file whose id
differs from the addressed one entirely unchanged. -/
theorem selection_ops_frame (d : List DiffFile) (fileId hunkId : String) (b : Bool) :
    (toggleFileSelection fileId d).map fileShape = d.map fileShape ∧
    (toggleHunkSelection fileId hunkId d).map fileShape = d.map fileShape ∧
    (selectAll b d).map fileShape = d.map fileShape ∧
    ∀ i, i < d.length → (d.getD i default).id ≠ fileId →
      (toggleFileSelection fileId d).getD i default = d.getD i default ∧
      (toggleHunkSelection fileId hunkId d).getD i default = d.getD i default := by
  refine ⟨?_, ?_, ?_, ?_⟩
  · unfold toggleFileSelection
    rw [List.map_map]
    refine congrFun (congrArg List.map (funext fun file => ?_)) d
    by_cases h : file.id = fileId <;>
      simp [Function.comp, h, fileShape, hunkShape, List.map_map]
  · unfold toggleHunkSelection
    rw [List.map_map]
    refine congrFun (congrArg List.map (funext fun file => ?_)) d
    by_cases h : file.id = fileId <;>
      simp [Function.comp, h, fileShape, hunkShape, List.map_map, apply_ite]
  · unfold selectAll
    rw [List.map_map]
    refine congrFun (congrArg List.map (funext fun file => ?_)) d
    simp [Function.comp, fileShape, hunkShape, List.map_map]
  · intro i hi hne
    constructor
    · unfold toggleFileSelection
      rw [getD_map_of_lt _ d i hi default default, if_neg hne]
    · unfold toggleHunkSelection
      rw [getD_map_of_lt _ d i hi default default, if_neg hne]

/-- C10 witness: a file with a different id is untouched by both toggles. -/
theorem selection_ops_frame_witness :
    (toggleFileSelection "file-1"
      [⟨"file-1", "h1", "p1", [], true⟩, ⟨"file-2", "h2", "p2", [], true⟩]).getD 1 default =
      ⟨"file-2", "h2", "p2", [], true⟩ := by
  have h := ((selection_ops_frame
    [⟨"file-1", "h1", "p1", [], true⟩, ⟨"file-2", "h2", "p2", [], true⟩]
    "file-1" "hunk-1" true).2.2.2 1 (by decide) (by decide)).1
  exact h.trans (by decide)

/-- C6: the filtered set contains exactly the files that are selected or
have a selected hunk, restricted to their selected hunks and dropped when
no hunk survives; with an empty filtered set (or no drawing surface) the
render call produces no output, and it never writes the document back. -/
theorem downloadAsImage_filter_spec (d : List DiffFile) :
    (∀ f, f ∈ filterSelected d ↔
      ∃ file, file ∈ d ∧
        (file.selected = true ∨ file.hunks.any (fun hunk => hunk.selected) = true) ∧
        file.hunks.filter (fun hunk => hunk.selected) ≠ [] ∧
        f = { file with hunks := file.hunks.filter (fun hunk => hunk.selected) }) ∧
    (∀ hasSurface fontSize,
      downloadAsImage hasSurface fontSize d = none ↔
        (hasSurface = false ∨ filterSelected d = [])) ∧
    (∀ hasSurface fontSize, (downloadAsImageStep hasSurface fontSize d).1 = d) := by
  refine ⟨fun f => ?_, fun hasSurface fontSize => ?_, fun _ _ => rfl⟩
  · unfold filterSelected
    constructor
    · intro hf
      rw [List.mem_filter] at hf
      obtain ⟨hmap, hlen⟩ := hf
      rw [List.mem_map] at hmap
      obtain ⟨file, hfil, rfl⟩ := hmap
      rw [List.mem_filter] at hfil
      obtain ⟨hd, hp⟩ := hfil
      refine ⟨file, hd, by simpa using hp, ?_, rfl⟩
      have hpos : 0 < (file.hunks.filter (fun hunk => hunk.selected)).length := by
        simpa using hlen
      exact List.length_pos.mp hpos
    · rintro ⟨file, hd, hsel, hne, rfl⟩
      rw [List.mem_filter]
      refine ⟨?_, by simpa using List.length_pos.mpr hne⟩
      rw [List.mem_map]
      refine ⟨file, ?_, rfl⟩
      rw [List.mem_filter]
      exact ⟨hd, by simpa using hsel⟩
  · cases hasSurface
    · simp [downloadAsImage]
    · cases hempty : (filterSelected d).isEmpty
      · have hne : filterSelected d ≠ [] := by
          intro h
          rw [h] at hempty
          simp at hempty
        simp [downloadAsImage, hempty, hne]
      · have he : filterSelected d = [] := by
          cases hl : filterSelected d with
          | nil => rfl
          | cons a t =>
            rw [hl] at hempty
            simp at hempty
        simp [downloadAsImage, hempty, he]

theorem sum_map_three {α : Type} (l : List α) (fA fB fC : α → Nat) :
    (l.map (fun x => fA x + fB x + fC x)).sum =
      (l.map fA).sum + (l.map fB).sum + (l.map fC).sum := by
  induction l with
  | nil => rfl
  | cons a t ih =>
    simp only [List.map_cons, List.sum_cons, ih]
    omega

theorem sum_map_mulR {α : Type} (l : List α) (f : α → Nat) (c : Nat) :
    (l.map (fun x => f x * c)).sum = (l.map f).sum * c := by
  induction l with
  | nil => simp
  | cons a t ih =>
    simp only [List.map_cons, List.sum_cons, ih]
    ring

theorem sum_map_mulL {α : Type} (l : List α) (f : α → Nat) (c : Nat) :
    (l.map (fun x => c * f x)).sum = c * (l.map f).sum := by
  induction l with
  | nil => simp
  | cons a t ih =>
    simp only [List.map_cons, List.sum_cons, ih]
    ring

theorem hunksHeight_eq (fontSize : Nat) (hs : List DiffHunk) :
    hunksHeight fontSize hs =
      hs.length * (fontSize + 4) +
      (hs.map (fun hunk => hunk.lines.length)).sum * (fontSize + 2) +
      5 * (hs.length - 1) := by
  induction hs with
  | nil => simp [hunksHeight]
  | cons a t ih =>
    cases t with
    | nil =>
      simp [hunksHeight]
    | cons b t2 =>
      rw [hunksHeight, ih]
      simp only [List.length_cons, List.map_cons, List.sum_cons, Nat.succ_sub_one]
      ring

theorem filesHeight_eq (fontSize : Nat) (files : List DiffFile) :
    filesHeight fontSize files =
      files.length * (fontSize + 8) +
      (files.map (fun file => hunksHeight fontSize file.hunks)).sum +
      10 * (files.length - 1) := by
  induction files with
  | nil => simp [filesHeight]
  | cons a t ih =>
    cases t with
    | nil =>
      simp [filesHeight]
    | cons b t2 =>
      rw [filesHeight, ih]
      simp only [List.length_cons, List.map_cons, List.sum_cons, Nat.succ_sub_one]
      ring

theorem totalHeight_closed (fontSize : Nat) (files : List DiffFile) :
    totalHeight fontSize files =
      10 + 10 + files.length * (fontSize + 8) +
      (files.map (fun file => file.hunks.length)).sum * (fontSize + 4) +
      (files.map
        (fun file => (file.hunks.map (fun hunk => hunk.lines.length)).sum)).sum * (fontSize + 2) +
      5 * (files.map (fun file => file.hunks.length - 1)).sum +
      10 * (files.length - 1) := by
  unfold totalHeight
  rw [filesHeight_eq]
  have hmap : files.map (fun file => hunksHeight fontSize file.hunks) =
      files.map (fun file =>
        file.hunks.length * (fontSize + 4) +
        (file.hunks.map (fun hunk => hunk.lines.length)).sum * (fontSize + 2) +
        5 * (file.hunks.length - 1)) :=
    congrFun (congrArg List.map (funext fun file => hunksHeight_eq fontSize file.hunks)) files
  rw [hmap,
    sum_map_three files
      (fun file => file.hunks.length * (fontSize + 4))
      (fun file => (file.hunks.map (fun hunk => hunk.lines.length)).sum * (fontSize + 2))
      (fun file => 5 * (file.hunks.length - 1)),
    sum_map_mulR files (fun file => file.hunks.length) (fontSize + 4),
    sum_map_mulR files
      (fun file => (file.hunks.map (fun hunk => hunk.lines.length)).sum) (fontSize + 2),
    sum_map_mulL files (fun file => file.hunks.length - 1) 5]
  omega

/-- C7: for a non-empty filtered selection the rendered canvas height is
10 top padding + 10 bottom padding + (fontSize+8) per file header +
(fontSize+4) per hunk header + (fontSize+2) per content line + 5 per gap
between consecutive hunks of a file + 10 per gap between consecutive
files; re-rendering the same selection and options yields the same
height. -/
theorem downloadAsImage_height (fontSize : Nat) (d : List DiffFile)
    (hne : filterSelected d ≠ []) :
    (downloadAsImage true fontSize d =
      some (10 + 10 +
        (filterSelected d).length * (fontSize + 8) +
        ((filterSelected d).map (fun file => file.hunks.length)).sum * (fontSize + 4) +
        ((filterSelected d).map
          (fun file => (file.hunks.map (fun hunk => hunk.lines.length)).sum)).sum *
            (fontSize + 2) +
        5 * ((filterSelected d).map (fun file => file.hunks.length - 1)).sum +
        10 * ((filterSelected d).length - 1))) ∧
    ∀ h₁ h₂, downloadAsImage true fontSize d = some h₁ →
      downloadAsImage true fontSize d = some h₂ → h₁ = h₂ := by
  have hempty : (filterSelected d).isEmpty = false := by
    cases hl : filterSelected d with
    | nil => exact absurd hl hne
    | cons a t => rfl
  constructor
  · simp [downloadAsImage, hempty, totalHeight_closed]
  · intro h₁ h₂ e₁ e₂
    rw [e₁] at e₂
    exact Option.some.inj e₂

/-- C7 witness: one file, one selected two-line hunk, font size 14 gives
10 + 22 + 18 + 2·16 + 10 = 92. -/
theorem downloadAsImage_height_witness :
    downloadAsImage true 14
      [⟨"file-1", "hdr", "p",
        [⟨"hunk-1", "@@ -1 +1 @@", ["+a", " b"], true⟩], true⟩] = some 92 := by
  have h := (downloadAsImage_height 14
    [⟨"file-1", "hdr", "p",
      [⟨"hunk-1", "@@ -1 +1 @@", ["+a", " b"], true⟩], true⟩] (by decide)).1
  exact h.trans (by decide)
